import Mathlib

/-
Verification development for the simulator core of the JavaDecomp repository
(src/src/decompiler_advanced.py, class JavaVirtualDebugger).

The Python code is shallowly embedded: strings are lists of characters,
Python regular expressions are embedded as explicit character-level matching
functions reproducing the exact patterns of the source, the mutable debugger
object becomes an explicit state record, and Python exceptions become an
`Except` result.  Character classes of the regular expressions are modelled
over the ASCII range (all inputs of interest are ASCII javap listings).
-/

namespace JavaDecomp

/-- Convert a Lean string literal to the character-list representation used
throughout this development. -/
def str (s : String) : List Char := s.data

/-- Python whitespace as matched by the regex class and by `str.strip()`:
space, tab, newline, carriage return, vertical tab, form feed. -/
def isPySpace (c : Char) : Bool :=
  c = ' ' || c = '\t' || c = '\n' || c = '\r' || c = '\x0b' || c = '\x0c'

/-- ASCII decimal digit, the regex class of the source patterns. -/
def isDig (c : Char) : Bool := '0' ≤ c && c ≤ '9'

/-- Character class of the opcode group of the instruction pattern:
letters and underscore only (digits are not included in the source pattern). -/
def isOpChar (c : Char) : Bool :=
  ('a' ≤ c && c ≤ 'z') || ('A' ≤ c && c ≤ 'Z') || c = '_'

/-- Numeric value of a nonempty list of decimal digits (most significant first),
as computed by Python `int` on the digits captured by a regex group. -/
def digitsToNat (l : List Char) : Nat :=
  l.foldl (fun a c => 10 * a + (c.toNat - 48)) 0

/-- Python `str.strip()` with no argument: remove leading and trailing
whitespace. -/
def pyStrip (l : List Char) : List Char :=
  ((l.dropWhile isPySpace).reverse.dropWhile isPySpace).reverse

/-- Python `text.split(chr(10))`: split into lines at newline characters;
the result is never empty and empty lines are kept. -/
def splitNl : List Char → List (List Char)
  | [] => [[]]
  | '\n' :: r => [] :: splitNl r
  | c :: r =>
    match splitNl r with
    | h :: t => (c :: h) :: t
    | [] => [[c]]

/-- Substring containment, Python `pat in line`. -/
def containsSub (l pat : List Char) : Bool :=
  match l with
  | [] => pat.isPrefixOf ([] : List Char)
  | _ :: t => pat.isPrefixOf l || containsSub t pat

/-- Generic leftmost search: apply the anchored matcher `f` at every suffix,
leftmost success wins.  This is the embedding of Python `re.search`. -/
def searchAux (f : List Char → Option α) : List Char → Option α
  | [] => f []
  | l@(_ :: t) =>
    match f l with
    | some v => some v
    | none => searchAux f t

/-- Anchored match of the line-marker pattern of `parse_bytecode`
(the literal text `line `, one or more digits, then a colon);
returns the captured number. -/
def markerAt (l : List Char) : Option Nat :=
  if (str "line ").isPrefixOf l then
    let r := l.drop 5
    let ds := r.takeWhile isDig
    if ds ≠ [] ∧ (r.drop ds.length).take 1 = [':'] then
      some (digitsToNat ds)
    else none
  else none

/-- Leftmost search of the line-marker pattern over a whole line. -/
def markerSearch (l : List Char) : Option Nat := searchAux markerAt l

/-- Anchored (whole-line) match of the instruction pattern of `parse_bytecode`:
optional whitespace, digits, a colon and a space, an opcode of letters and
underscores, then the operand text from which a trailing `//` comment is
removed; the operand group is stripped.  Returns offset, opcode, operands. -/
def instrMatch (l : List Char) : Option (Nat × List Char × List Char) :=
  let r1 := l.dropWhile isPySpace
  let ds := r1.takeWhile isDig
  if ds = [] then none
  else
    match r1.drop ds.length with
    | ':' :: ' ' :: r3 =>
      let op := r3.takeWhile isOpChar
      if op = [] then none
      else some (digitsToNat ds, op, pyStrip (dropComment (r3.drop op.length)))
    | _ => none
where
  /-- Text before the first occurrence of `//` (the optional comment group of
  the pattern). -/
  dropComment : List Char → List Char
    | '/' :: '/' :: _ => []
    | c :: r => c :: dropComment r
    | [] => []

/-- A parsed bytecode instruction record, as produced by `parse_bytecode`. -/
structure Instr where
  offset : Nat
  opcode : List Char
  operands : List Char
  line : Option Nat
deriving DecidableEq, Repr

/-- The line-by-line loop of `parse_bytecode`: the marker pattern updates the
current source line (checked first), the instruction pattern appends a record
tagged with the current source line. -/
def parseLines : List (List Char) → Option Nat → List Instr
  | [], _ => []
  | l :: ls, cur =>
    let cur' := match markerSearch l with
                | some n => some n
                | none => cur
    match instrMatch l with
    | some (off, op, ar) => ⟨off, op, ar, cur'⟩ :: parseLines ls cur'
    | none => parseLines ls cur'

/-- Embedding of `JavaVirtualDebugger.parse_bytecode`. -/
def parse_bytecode (bytecode : List Char) : List Instr :=
  parseLines (splitNl bytecode) none

/-- Anchored match of the string-constant pattern of `parse_constant_pool`:
`#` digits, whitespace, `=`, whitespace, `String`, whitespace, `#` digits,
whitespace, `//`, whitespace, then the captured value (everything to the end
of the line, at least one character).  Returns the captured value. -/
def stringEntryAt (l : List Char) : Option (List Char) := do
  let r ← eatHashNum l
  let r ← eatWs1 r
  let r ← eatChar '=' r
  let r ← eatWs1 r
  let r ← eatTok (str "String") r
  let r ← eatWs1 r
  let r ← eatHashNum r
  let r ← eatWs1 r
  let r ← eatTok (str "//") r
  capTail r
where
  eatChar (c : Char) : List Char → Option (List Char)
    | x :: r => if x = c then some r else none
    | [] => none
  eatTok (t : List Char) (l : List Char) : Option (List Char) :=
    if t.isPrefixOf l then some (l.drop t.length) else none
  eatHashNum (l : List Char) : Option (List Char) :=
    match l with
    | '#' :: r =>
      let ds := r.takeWhile isDig
      if ds = [] then none else some (r.drop ds.length)
    | _ => none
  eatWs1 (l : List Char) : Option (List Char) :=
    let ws := l.takeWhile isPySpace
    if ws = [] then none else some (l.drop ws.length)
  /-- The final `\s+(.+)$` of the pattern: at least one whitespace character,
  then a nonempty capture running to the end of the line; when only
  whitespace remains, the greedy whitespace gives one character back. -/
  capTail (l : List Char) : Option (List Char) :=
    let ws := l.takeWhile isPySpace
    let tl := l.drop ws.length
    if tl ≠ [] then
      if ws = [] then none else some tl
    else
      if 2 ≤ ws.length then (ws.getLast?).map (fun c => [c]) else none

/-- Anchored match of the UTF8-constant pattern of `parse_constant_pool`:
`#` digits, whitespace, `=`, whitespace, `Utf8`, whitespace, then the
captured value. -/
def utf8EntryAt (l : List Char) : Option (List Char) := do
  let r ← stringEntryAt.eatHashNum l
  let r ← stringEntryAt.eatWs1 r
  let r ← stringEntryAt.eatChar '=' r
  let r ← stringEntryAt.eatWs1 r
  let r ← stringEntryAt.eatTok (str "Utf8") r
  stringEntryAt.capTail r

/-- Anchored match of `#` followed by one or more digits; returns the
captured number. -/
def hashAt : List Char → Option Nat
  | '#' :: r =>
    let ds := r.takeWhile isDig
    if ds = [] then none else some (digitsToNat ds)
  | _ => none

/-- Leftmost search of the pattern `#` followed by digits; returns the
captured number.  This is the index extraction of `parse_constant_pool`
and of the `ldc` branch of the interpreter. -/
def hashNumSearch (l : List Char) : Option Nat :=
  searchAux hashAt l

/-- Insertion into the constant-pool dictionary; a later insertion for the
same index shadows an earlier one on lookup, matching Python dict update. -/
def poolInsert (p : List (Nat × List Char)) (k : Nat) (v : List Char) :
    List (Nat × List Char) :=
  (k, v) :: p

/-- Dictionary lookup for the constant pool. -/
def poolLookup (p : List (Nat × List Char)) (k : Nat) : Option (List Char) :=
  (p.find? (fun q => q.1 = k)).map (fun q => q.2)

/-- The line loop of `parse_constant_pool`: a line containing the sentinel
`Constant pool:` opens the region, a blank line inside it closes it; inside
the region the string pattern and then the UTF8 pattern are searched for on
each line, each recording its value at the first `#`-number of the line. -/
def poolLines : List (List Char) → Bool → List (Nat × List Char) →
    List (Nat × List Char)
  | [], _, acc => acc
  | l :: ls, inPool, acc =>
    if containsSub l (str "Constant pool:") then poolLines ls true acc
    else if inPool then
      if pyStrip l = [] then poolLines ls false acc
      else
        let acc1 :=
          match searchAux stringEntryAt l, hashNumSearch l with
          | some v, some idx => poolInsert acc idx v
          | _, _ => acc
        let acc2 :=
          match searchAux utf8EntryAt l, hashNumSearch l with
          | some v, some idx => poolInsert acc1 idx v
          | _, _ => acc1
        poolLines ls true acc2
    else poolLines ls false acc

/-- Embedding of `JavaVirtualDebugger.parse_constant_pool`. -/
def parse_constant_pool (bytecode : List Char) : List (Nat × List Char) :=
  poolLines (splitNl bytecode) false []

/-- Execution state of the controller: `stopped`, `running` or `paused`. -/
inductive ExecState where
  | stopped
  | running
  | paused
deriving DecidableEq, Repr

/-- A dynamically typed stack value: Python int, float, str or None.
Floats only arise from the numeric branch of `ldc`; no verified property
depends on float arithmetic or formatting, so a float is carried symbolically
as the literal text it was parsed from. -/
inductive Value where
  | intV (n : Int)
  | floatV (s : List Char)
  | strV (s : List Char)
  | noneV
deriving DecidableEq, Repr

/-- The Python exceptions the interpreter can raise, plus `unmodelled` for
operations on values (float arithmetic, string formatting) whose outcome no
claim depends on. -/
inductive PyErr where
  | attrError
  | valueError
  | zeroDivisionError
  | typeError
  | unmodelled
deriving DecidableEq, Repr

/-- Decimal digits of a natural number, most significant first. -/
def natStr (n : Nat) : List Char := Nat.toDigits 10 n

/-- Python `str` of an int. -/
def intStr (n : Int) : List Char :=
  if n < 0 then '-' :: natStr n.natAbs else natStr n.natAbs

/-- Python `str()` conversion of a stack value (`str(None)` is `None`;
float formatting is not modelled and returns the symbolic literal). -/
def pyStr : Value → List Char
  | .intV n => intStr n
  | .floatV s => s
  | .strV s => s
  | .noneV => str "None"

/-- Python string repetition `s * n` (empty for nonpositive `n`). -/
def repList (n : Nat) (s : List Char) : List Char :=
  (List.replicate n s).flatten

/-- Python `a + b` on stack values: exact integer addition, string
concatenation; mixed int/str or None raises TypeError. -/
def pyAdd : Value → Value → Except PyErr Value
  | .intV a, .intV b => .ok (.intV (a + b))
  | .strV a, .strV b => .ok (.strV (a ++ b))
  | .floatV _, _ => .error .unmodelled
  | _, .floatV _ => .error .unmodelled
  | _, _ => .error .typeError

/-- Python `a - b` on stack values. -/
def pySub : Value → Value → Except PyErr Value
  | .intV a, .intV b => .ok (.intV (a - b))
  | .floatV _, _ => .error .unmodelled
  | _, .floatV _ => .error .unmodelled
  | _, _ => .error .typeError

/-- Python `a * b` on stack values (string repetition included). -/
def pyMul : Value → Value → Except PyErr Value
  | .intV a, .intV b => .ok (.intV (a * b))
  | .strV s, .intV n => .ok (.strV (repList n.toNat s))
  | .intV n, .strV s => .ok (.strV (repList n.toNat s))
  | .floatV _, _ => .error .unmodelled
  | _, .floatV _ => .error .unmodelled
  | _, _ => .error .typeError

/-- Python `a // b` on stack values: floor division on ints,
ZeroDivisionError on a zero divisor. -/
def pyFloorDiv : Value → Value → Except PyErr Value
  | .intV a, .intV b =>
    if b = 0 then .error .zeroDivisionError else .ok (.intV (Int.fdiv a b))
  | .floatV _, _ => .error .unmodelled
  | _, .floatV _ => .error .unmodelled
  | _, _ => .error .typeError

/-- Python `a % b` on stack values: floor-convention remainder on ints,
ZeroDivisionError on a zero divisor (string formatting is not modelled). -/
def pyMod : Value → Value → Except PyErr Value
  | .intV a, .intV b =>
    if b = 0 then .error .zeroDivisionError else .ok (.intV (Int.fmod a b))
  | .strV _, _ => .error .unmodelled
  | .floatV _, _ => .error .unmodelled
  | _, .floatV _ => .error .unmodelled
  | _, _ => .error .typeError

/-- Consume a Python `digitpart` (digits with single underscores between
digits) and return the unconsumed rest; the flag records whether the last
consumed character was a digit. -/
def eatDP : List Char → Bool → Option (List Char)
  | [], flag => if flag then some [] else none
  | l@(c :: r), flag =>
    if isDig c then eatDP r true
    else if c = '_' then (if flag then eatDP r false else none)
    else if flag then some l else none

/-- Accumulating variant of `eatDP` that also computes the numeric value and
requires the whole input to be a digitpart; this is the digit grammar of
Python `int()`. -/
def digitPartVal : List Char → Bool → Nat → Option Nat
  | [], flag, acc => if flag then some acc else none
  | c :: r, flag, acc =>
    if isDig c then digitPartVal r true (10 * acc + (c.toNat - 48))
    else if c = '_' then (if flag then digitPartVal r false acc else none)
    else none

/-- Python `int(s)` on a string: strip whitespace, optional sign, then a
digitpart covering the whole rest (ASCII digits). -/
def pyIntParse (s : List Char) : Option Int :=
  match pyStrip s with
  | '+' :: r => (digitPartVal r false 0).map (fun n => (n : Int))
  | '-' :: r => (digitPartVal r false 0).map (fun n => -(n : Int))
  | r => (digitPartVal r false 0).map (fun n => (n : Int))

/-- Characters that can appear in a Python float literal after the optional
sign: digits, underscore, point, exponent sign, exponent marker, and the
letters of `inf`, `infinity` and `nan` in either case. -/
def isFloatChar (c : Char) : Bool :=
  isDig c || c = '_' || c = '.' || c = '+' || c = '-' ||
  c = 'e' || c = 'E' || c = 'i' || c = 'I' || c = 'n' || c = 'N' ||
  c = 'f' || c = 'F' || c = 'a' || c = 'A' || c = 't' || c = 'T' ||
  c = 'y' || c = 'Y'

/-- ASCII lower-casing, for the case-insensitive float words. -/
def asciiLower (c : Char) : Char :=
  if 'A' ≤ c ∧ c ≤ 'Z' then Char.ofNat (c.toNat + 32) else c

/-- Optional exponent part of a float literal, which must consume the whole
rest of the input. -/
def expOk : List Char → Bool
  | [] => true
  | c :: r =>
    if c = 'e' ∨ c = 'E' then
      let r2 := match r with
                | s :: r' => if s = '+' ∨ s = '-' then r' else s :: r'
                | [] => []
      match eatDP r2 false with
      | some [] => true
      | _ => false
    else false

/-- Numeric shape of a Python float literal (after sign removal):
`digitpart [. [digitpart]] [exponent]` or `. digitpart [exponent]`. -/
def floatNumOk (s : List Char) : Bool :=
  match s with
  | '.' :: r =>
    match eatDP r false with
    | some r1 => expOk r1
    | none => false
  | _ =>
    match eatDP s false with
    | some r1 =>
      match r1 with
      | '.' :: r2 =>
        let r3 := match eatDP r2 false with | some x => x | none => r2
        expOk r3
      | _ => expOk r1
    | none => false

/-- Remove one optional leading sign. -/
def dropSign : List Char → List Char
  | c :: r => if c = '+' ∨ c = '-' then r else c :: r
  | [] => []

/-- Whether Python `float(s)` succeeds: strip whitespace, optional sign, then
either one of the words `inf`, `infinity`, `nan` (case-insensitive) or a
numeric literal.  Only ASCII literals are modelled. -/
def pyFloatOk (s0 : List Char) : Bool :=
  let s2 := dropSign (pyStrip s0)
  s2.all isFloatChar &&
  (s2.map asciiLower = str "inf" || s2.map asciiLower = str "infinity" ||
   s2.map asciiLower = str "nan" || floatNumOk s2)

/-- The whole mutable state of a `JavaVirtualDebugger` session.  The
`instructions`, `breakpoints` and `pool` fields belong to the session and are
read (never written) by the interpreter; `variables` is the insertion-ordered
dictionary of named variables.  The vestigial `pc` attribute of the source
(set once in the constructor and never used again) is not modelled; the
program counter of the spec is `idx` (`current_instruction_index`). -/
structure Dbg where
  instructions : List Instr
  breakpoints : List Nat
  output : List (List Char)
  vars : List (List Char × Value)
  stack : List Value
  idx : Nat
  execState : ExecState
  lastBreakpointHit : Option Nat
  programOutput : List (List Char)
  pool : List (Nat × List Char)
deriving DecidableEq, Repr

/-- Python dict assignment `d[k] = v` on the ordered variable dictionary:
update in place when the key exists, append otherwise. -/
def dictSet (d : List (List Char × Value)) (k : List Char) (v : Value) :
    List (List Char × Value) :=
  if d.any (fun p => p.1 == k) then
    d.map (fun p => if p.1 = k then (k, v) else p)
  else d ++ [(k, v)]

/-- Embedding of `JavaVirtualDebugger._simulate_instruction`.  The stack is
kept in Python list order (bottom first): `append` pushes at the right end
and `pop` removes from the right end, which the definition expresses by
matching on the reversed stack.  A raised Python exception becomes an
`Except.error`. -/
def simulate (i : Instr) (d : Dbg) : Except PyErr Dbg :=
  if i.opcode = str "ldc" then
    match hashNumSearch i.operands with
    | none => .error .attrError
    | some constIndex =>
      match poolLookup d.pool constIndex with
      | some s =>
        .ok { d with stack := d.stack ++ [.strV s],
                     output := d.output ++ [str "Loaded string constant: " ++ s] }
      | none =>
        if pyFloatOk i.operands then
          let v : Value := .floatV (pyStrip i.operands)
          .ok { d with stack := d.stack ++ [v],
                       output := d.output ++ [str "Loaded constant: " ++ pyStr v] }
        else
          .ok { d with stack := d.stack ++ [.noneV] }
  else if i.opcode = str "getstatic" ∧ containsSub i.operands (str "java/lang/System.out") then
    .ok d
  else if i.opcode = str "invokevirtual" then
    if containsSub i.operands (str "println") then
      match d.stack.reverse with
      | v :: rrev =>
        .ok { d with stack := rrev.reverse,
                     output := d.output ++ [str "Program output: " ++ pyStr v],
                     programOutput := d.programOutput ++ [pyStr v ++ str "\n"] }
      | [] => .ok d
    else if containsSub i.operands (str "append") then
      match d.stack.reverse with
      | v :: b :: rrev =>
        let res := pyStr b ++ pyStr v
        .ok { d with stack := rrev.reverse ++ [.strV res],
                     output := d.output ++
                       [str "Appended: " ++ pyStr v ++ str " to " ++ pyStr b] }
      | _ => .ok d
    else if containsSub i.operands (str "toString") then
      match d.stack.reverse with
      | v :: rrev =>
        let res := pyStr v
        .ok { d with stack := rrev.reverse ++ [.strV res],
                     output := d.output ++ [str "Converted to string: " ++ res] }
      | [] => .ok d
    else .ok d
  else if i.opcode = str "new" ∧ containsSub i.operands (str "java/lang/StringBuilder") then
    .ok { d with stack := d.stack ++ [.strV []],
                 output := d.output ++ [str "Created new StringBuilder"] }
  else if i.opcode = str "istore_1" then
    match d.stack.reverse with
    | v :: rrev =>
      .ok { d with stack := rrev.reverse,
                   vars := dictSet d.vars (str "a") v,
                   output := d.output ++ [str "Set variable \x27a\x27 = " ++ pyStr v] }
    | [] => .ok d
  else if i.opcode = str "istore_2" then
    match d.stack.reverse with
    | v :: rrev =>
      .ok { d with stack := rrev.reverse,
                   vars := dictSet d.vars (str "b") v,
                   output := d.output ++ [str "Set variable \x27b\x27 = " ++ pyStr v] }
    | [] => .ok d
  else if i.opcode = str "iconst_5" then
    .ok { d with stack := d.stack ++ [.intV 5],
                 output := d.output ++ [str "Pushed constant 5 to stack"] }
  else if i.opcode = str "bipush" then
    match pyIntParse i.operands with
    | none => .error .valueError
    | some n =>
      .ok { d with stack := d.stack ++ [.intV n],
                   output := d.output ++
                     [str "Pushed constant " ++ intStr n ++ str " to stack"] }
  else if i.opcode = str "iadd" then
    match d.stack.reverse with
    | b :: a :: rrev =>
      match pyAdd a b with
      | .error e => .error e
      | .ok res =>
        .ok { d with stack := rrev.reverse ++ [res],
                     output := d.output ++
                       [str "Added " ++ pyStr a ++ str " + " ++ pyStr b ++
                        str " = " ++ pyStr res] }
    | _ => .ok d
  else if i.opcode = str "isub" then
    match d.stack.reverse with
    | b :: a :: rrev =>
      match pySub a b with
      | .error e => .error e
      | .ok res =>
        .ok { d with stack := rrev.reverse ++ [res],
                     output := d.output ++
                       [str "Subtracted " ++ pyStr a ++ str " - " ++ pyStr b ++
                        str " = " ++ pyStr res] }
    | _ => .ok d
  else if i.opcode = str "imul" ∨ i.opcode = str "idiv" ∨ i.opcode = str "irem" then
    match d.stack.reverse with
    | b :: a :: rrev =>
      if i.opcode = str "imul" then
        match pyMul a b with
        | .error e => .error e
        | .ok res =>
          .ok { d with stack := rrev.reverse ++ [res],
                       output := d.output ++
                         [str "Multiplied " ++ pyStr a ++ str " * " ++ pyStr b ++
                          str " = " ++ pyStr res] }
      else if i.opcode = str "idiv" then
        match pyFloorDiv a b with
        | .error e => .error e
        | .ok res =>
          .ok { d with stack := rrev.reverse ++ [res],
                       output := d.output ++
                         [str "Divided " ++ pyStr a ++ str " / " ++ pyStr b ++
                          str " = " ++ pyStr res] }
      else
        match pyMod a b with
        | .error e => .error e
        | .ok res =>
          .ok { d with stack := rrev.reverse ++ [res],
                       output := d.output ++
                         [str "Remainder " ++ pyStr a ++ str " % " ++ pyStr b ++
                          str " = " ++ pyStr res] }
    | _ => .ok d
  else .ok d

/-- Comma-separated join, Python `, .join(...)`. -/
def joinComma (l : List (List Char)) : List Char :=
  List.intercalate (str ", ") l

/-- Embedding of `JavaVirtualDebugger._show_state`: append the state dump
(program counter, stack bottom to top, variables in dictionary order) to the
trace. -/
def showState (d : Dbg) : Dbg :=
  { d with output := d.output ++
      [str "\nCurrent State:",
       str "PC: " ++ natStr d.idx,
       str "Stack: [" ++ joinComma (d.stack.map pyStr) ++ str "]",
       str "Variables: " ++
         joinComma (d.vars.map (fun p => p.1 ++ '=' :: pyStr p.2)),
       []] }

/-- The trace lines `step` installs after clearing the output: the
executing-instruction line and, when the record has one, the source line. -/
def stepTrace (instr : Instr) : List (List Char) :=
  [str "Executing: " ++ natStr instr.offset ++ str ": " ++
   instr.opcode ++ str " " ++ instr.operands] ++
  (match instr.line with
   | some n => [str "Source line: " ++ natStr n]
   | none => [])

/-- Embedding of `JavaVirtualDebugger.step`.  The source first sets the
execution state to paused, then tests `pc >= length` (expressed here by
matching on the dropped suffix of the instruction list), and in the normal
case clears the trace, logs the instruction, simulates it, advances the
counter and dumps the state. -/
def step (d0 : Dbg) : Except PyErr Dbg :=
  let d := { d0 with execState := ExecState.paused }
  match d.instructions.drop d.idx with
  | [] =>
    .ok { d with output := d.output ++ [str "End of program reached."],
                 execState := ExecState.stopped }
  | instr :: _ =>
    match simulate instr { d with output := stepTrace instr } with
    | .error e => .error e
    | .ok d2 => .ok (showState { d2 with idx := d2.idx + 1 })

/-- Embedding of `JavaVirtualDebugger.reset`: clears the trace then appends
the reset message, reseeds the variables, clears stack and program output,
zeroes the counter and stops.  The last-breakpoint-hit marker is untouched. -/
def reset (d : Dbg) : Dbg :=
  { d with output := [str "Program reset. Ready to run."],
           vars := [(str "a", Value.intV 5), (str "b", Value.intV 10)],
           stack := [],
           idx := 0,
           execState := ExecState.stopped,
           programOutput := [] }

/-- Iterated `step`, stopping at the first raised exception. -/
def stepN : Nat → Dbg → Except PyErr Dbg
  | 0, d => .ok d
  | n + 1, d =>
    match step d with
    | .error e => .error e
    | .ok d' => stepN n d'

/-- The while-loop of `run_to_next_breakpoint`, recursing over the suffix of
the instruction list starting at the current counter (the simulator never
writes `instructions` or the counter, so the suffix determines the loop).
The skip flag is cleared after the first iteration, exactly as in the
source. -/
def runLoop : List Instr → Bool → Dbg → Except PyErr Dbg
  | [], _, d => .ok (showState { d with execState := ExecState.stopped })
  | instr :: rest, skip, d =>
    if instr.offset ∈ d.breakpoints ∧
        (skip = false ∨ ¬ some instr.offset = d.lastBreakpointHit) then
      .ok (showState { d with execState := ExecState.paused,
                              lastBreakpointHit := some instr.offset })
    else
      match simulate instr d with
      | .error e => .error e
      | .ok d' => runLoop rest false { d' with idx := d'.idx + 1 }

/-- Embedding of `JavaVirtualDebugger.run_to_next_breakpoint`. -/
def run_to_next_breakpoint (d0 : Dbg) : Except PyErr Dbg :=
  let d := { d0 with execState := ExecState.running, output := [] }
  let skip : Bool :=
    match d.instructions.drop d.idx with
    | instr :: _ =>
      decide (instr.offset ∈ d.breakpoints ∧
              some instr.offset = d.lastBreakpointHit)
    | [] => false
  runLoop (d.instructions.drop d.idx) skip d

/-- Embedding of the `JavaVirtualDebugger` constructor: parse the listing and
the constant pool, start stopped at counter zero with everything empty. -/
def initDbg (bytecode : List Char) : Dbg :=
  { instructions := parse_bytecode bytecode,
    breakpoints := [],
    output := [],
    vars := [],
    stack := [],
    idx := 0,
    execState := ExecState.stopped,
    lastBreakpointHit := none,
    programOutput := [],
    pool := parse_constant_pool bytecode }

deriving instance DecidableEq for Except

/-- Whether a stepping result is a normal return. -/
def isOkE : Except PyErr Dbg → Bool
  | .ok _ => true
  | .error _ => false

/-- Execution state of a normal result. -/
def okExecState : Except PyErr Dbg → Option ExecState
  | .ok d => some d.execState
  | .error _ => none

/-- Value stack of a normal result. -/
def okStack : Except PyErr Dbg → Option (List Value)
  | .ok d => some d.stack
  | .error _ => none

/-- Option fallback, used to express the running source-line context. -/
def orElseO (a b : Option Nat) : Option Nat :=
  match a with
  | some v => some v
  | none => b

/-- Lines paired with their position, counting from `n`. -/
def numbered : Nat → List (List Char) → List (Nat × List Char)
  | _, [] => []
  | n, l :: ls => (n, l) :: numbered (n + 1) ls

/-- The source-line context of line `i`: the value of the last line-marker
match on lines `0..i` (the marker of line `i` itself included, since the
source checks the marker pattern before the instruction pattern), or none. -/
def markerCtx (lines : List (List Char)) (i : Nat) : Option Nat :=
  ((lines.take (i + 1)).filterMap markerSearch).getLast?

/-- Specification-side parser, following the wording of the claim on
`parse_bytecode`: every line matching the instruction pattern contributes one
record, in input order, with its offset taken verbatim from the match and
tagged with the nearest preceding line marker (or none); non-matching lines
contribute nothing. -/
def claimParse (lines : List (List Char)) : List Instr :=
  (numbered 0 lines).filterMap fun p =>
    (instrMatch p.2).map fun t => ⟨t.1, t.2.1, t.2.2, markerCtx lines p.1⟩

/-- The three-instruction listing of the push/push/add scenario. -/
def c2Text : List Char := str "0: iconst_5\n1: bipush 10\n2: iadd"

/-- A one-instruction listing with an unhandled opcode. -/
def nopText : List Char := str "0: nop"

/-- A session state carrying a recorded breakpoint hit and a nonempty trace. -/
def c4Dbg : Dbg :=
  { initDbg [] with lastBreakpointHit := some 3, output := [str "old"] }

/-- A listing whose constant-pool region holds a quoted string entry at
index 7 followed by a load of that index. -/
def c8Text : List Char :=
  str "Constant pool:\n#7 = String #3 // \x22Hi\x22\n\n0: ldc #7"

/-- A constant-pool region with two entries for the same index. -/
def c8DupText : List Char :=
  str "Constant pool:\n#7 = String #3 // First\n#7 = Utf8 Bye\n"

/-- An empty session whose pool maps index 7 to the text `X`. -/
def c3PoolDbg : Dbg := { initDbg [] with pool := [(7, str "X")] }

/-- An empty session with stack holding -7 below 2. -/
def c7Dbg : Dbg :=
  { initDbg [] with stack := [Value.intV (-7), Value.intV 2] }

/-- An empty session with stack holding 5 below 0. -/
def c9Dbg : Dbg :=
  { initDbg [] with stack := [Value.intV 5, Value.intV 0] }

/-- A session on offsets 10, 20, 10, with a breakpoint at 10 already
recorded as the last hit, paused at the first instruction. -/
def c6Dbg : Dbg :=
  { initDbg (str "10: nop\n20: nop\n10: nop") with
      breakpoints := [10], lastBreakpointHit := some 10,
      execState := ExecState.paused }

/-- The first instruction of `c6Dbg`. -/
def c6I : Instr := ⟨10, str "nop", [], none⟩

/-- The instructions of `c6Dbg` after the first. -/
def c6Rest : List Instr := [⟨20, str "nop", [], none⟩, ⟨10, str "nop", [], none⟩]

/-- An empty session (no instructions), already at the end of its stream. -/
def c1EndDbg : Dbg := initDbg []

example : instrMatch (str "0: iconst_5") =
    some (0, str "iconst_", str "5") := by decide

example : instrMatch (str "   12: ldc           #7   // String x") =
    some (12, str "ldc", str "#7") := by decide

example : markerSearch (str "        line 23: 0") = some 23 := by decide

example : parse_bytecode (str "0: iconst_5\n1: bipush 10\n2: iadd") =
    [⟨0, str "iconst_", str "5", none⟩,
     ⟨1, str "bipush", str "10", none⟩,
     ⟨2, str "iadd", str "", none⟩] := by decide

example :
    poolLookup (parse_constant_pool
      (str "Constant pool:\n#7 = String #3 // \x22Hi\x22\n\n0: ldc #7")) 7 =
    some (str "\x22Hi\x22") := by decide

example :
    okStack (stepN 3 (reset (initDbg (str "0: iconst_5\n1: bipush 10\n2: iadd")))) =
    some [Value.intV 10] := by decide

example :
    okExecState (stepN 1 (reset (initDbg (str "0: nop")))) =
    some ExecState.paused := by decide

example :
    okExecState (stepN 2 (reset (initDbg (str "0: nop")))) =
    some ExecState.stopped := by decide

example : pyIntParse (str " 42 ") = some 42 := by decide
example : pyIntParse (str "") = none := by decide
example : pyIntParse (str "-1_0") = some (-10) := by decide
example : pyFloatOk (str " -12.5e3 ") = true := by decide
example : pyFloatOk (str "#7") = false := by decide
example : pyFloatOk (str "Infinity") = true := by decide
example : simulate ⟨0, str "ldc", str "2.5", none⟩ (initDbg []) =
    Except.error PyErr.attrError := by decide

/-- Dispatch of `simulate` on an `ldc` instruction, read off the source:
extract the first `#`-number of the operand (an exception if there is none),
then pool lookup, then the numeric fallback. -/
theorem simulate_ldc (off : Nat) (ops : List Char) (ln : Option Nat) (d : Dbg) :
    simulate ⟨off, str "ldc", ops, ln⟩ d =
      match hashNumSearch ops with
      | none => .error .attrError
      | some constIndex =>
        match poolLookup d.pool constIndex with
        | some s =>
          .ok { d with stack := d.stack ++ [.strV s],
                       output := d.output ++ [str "Loaded string constant: " ++ s] }
        | none =>
          if pyFloatOk ops then
            .ok { d with stack := d.stack ++ [.floatV (pyStrip ops)],
                         output := d.output ++
                           [str "Loaded constant: " ++ pyStr (.floatV (pyStrip ops))] }
          else
            .ok { d with stack := d.stack ++ [.noneV] } := rfl

/-- Dispatch of `simulate` on a `bipush` instruction. -/
theorem simulate_bipush (off : Nat) (ops : List Char) (ln : Option Nat) (d : Dbg) :
    simulate ⟨off, str "bipush", ops, ln⟩ d =
      match pyIntParse ops with
      | none => .error .valueError
      | some n =>
        .ok { d with stack := d.stack ++ [.intV n],
                     output := d.output ++
                       [str "Pushed constant " ++ intStr n ++ str " to stack"] } := rfl

/-- Dispatch of `simulate` on an `idiv` instruction. -/
theorem simulate_idiv (off : Nat) (ops : List Char) (ln : Option Nat) (d : Dbg) :
    simulate ⟨off, str "idiv", ops, ln⟩ d =
      match d.stack.reverse with
      | b :: a :: rrev =>
        match pyFloorDiv a b with
        | .error e => .error e
        | .ok res =>
          .ok { d with stack := rrev.reverse ++ [res],
                       output := d.output ++
                         [str "Divided " ++ pyStr a ++ str " / " ++ pyStr b ++
                          str " = " ++ pyStr res] }
      | _ => .ok d := rfl

/-- Dispatch of `simulate` on an `irem` instruction. -/
theorem simulate_irem (off : Nat) (ops : List Char) (ln : Option Nat) (d : Dbg) :
    simulate ⟨off, str "irem", ops, ln⟩ d =
      match d.stack.reverse with
      | b :: a :: rrev =>
        match pyMod a b with
        | .error e => .error e
        | .ok res =>
          .ok { d with stack := rrev.reverse ++ [res],
                       output := d.output ++
                         [str "Remainder " ++ pyStr a ++ str " % " ++ pyStr b ++
                          str " = " ++ pyStr res] }
      | _ => .ok d := rfl

/-- Bounds of the floor remainder for a negative divisor. -/
theorem fmod_bounds_negd (a : Int) (n : Nat) :
    Int.negSucc n < Int.fmod a (Int.negSucc n) ∧
    Int.fmod a (Int.negSucc n) ≤ 0 := by
  cases a with
  | ofNat m =>
    cases m with
    | zero =>
      rw [show Int.ofNat 0 = 0 from rfl, Int.zero_fmod]
      simp only [Int.negSucc_eq]
      omega
    | succ m =>
      have h : m % (n + 1) < n + 1 := Nat.mod_lt m (Nat.succ_pos n)
      have e : Int.fmod (Int.ofNat (m + 1)) (Int.negSucc n) =
          Int.subNatNat (m % (n + 1)) n := rfl
      rw [e, Int.subNatNat_eq_coe]
      simp only [Int.negSucc_eq]
      omega
  | negSucc m =>
    have h : (m + 1) % (n + 1) < n + 1 := Nat.mod_lt (m + 1) (Nat.succ_pos n)
    have e : Int.fmod (Int.negSucc m) (Int.negSucc n) =
        -Int.ofNat ((m + 1) % (n + 1)) := rfl
    rw [e]
    simp only [Int.negSucc_eq, Int.ofNat_eq_natCast]
    omega

/-- Sign-split bounds of the floor remainder, pinning `Int.fdiv` as the
floor quotient through `Int.fdiv_add_fmod`. -/
theorem fmod_bounds (a b : Int) :
    (0 < b → 0 ≤ Int.fmod a b ∧ Int.fmod a b < b) ∧
    (b < 0 → b < Int.fmod a b ∧ Int.fmod a b ≤ 0) := by
  constructor
  · intro hb
    exact ⟨Int.fmod_nonneg' a hb, Int.fmod_lt_of_pos a hb⟩
  · intro hb
    cases b with
    | ofNat k => exact absurd hb (by simp only [Int.ofNat_eq_natCast]; omega)
    | negSucc n => exact fmod_bounds_negd a n

/-- C4 counterexample: `reset` leaves the last-breakpoint-hit marker exactly
as it was (here `some 3`, not the initial empty value) and returns a trace
holding the reset message, not an empty trace. -/
theorem C4_counterexample :
    (reset c4Dbg).lastBreakpointHit = some 3 ∧
    some 3 ≠ (none : Option Nat) ∧
    (reset c4Dbg).output ≠ [] := by decide

/-- C4 (amended): `reset`, called in any state, always succeeds and
establishes an empty stack, an empty Program Output Log, program counter 0,
variables seeded to a=5 and b=10, and execution state stopped; the trace
holds exactly the single reset message, the last-breakpoint-hit marker is
left unchanged (it is cleared separately by the GUI caller, not by `reset`),
the session data (instructions, breakpoints, pool) is untouched, and `reset`
is idempotent. -/
theorem C4_thm (d : Dbg) :
    (reset d).stack = [] ∧
    (reset d).programOutput = [] ∧
    (reset d).idx = 0 ∧
    (reset d).vars = [(str "a", Value.intV 5), (str "b", Value.intV 10)] ∧
    (reset d).execState = ExecState.stopped ∧
    (reset d).output = [str "Program reset. Ready to run."] ∧
    (reset d).lastBreakpointHit = d.lastBreakpointHit ∧
    (reset d).instructions = d.instructions ∧
    (reset d).breakpoints = d.breakpoints ∧
    (reset d).pool = d.pool ∧
    reset (reset d) = reset d :=
  ⟨rfl, rfl, rfl, rfl, rfl, rfl, rfl, rfl, rfl, rfl, rfl⟩

/-- C2 (code bug): on the listing `0: iconst_5` / `1: bipush 10` / `2: iadd`
the parser pattern, whose opcode class has no digits, truncates the first
opcode to `iconst_` (operand `5`), the interpreter treats it as an unknown
no-op, the add then underflows and is skipped, and three steps from a fresh
reset leave the stack `[10]`, not `[15]` as the interpreter's own `iconst_5`
handler intends. -/
theorem C2_thm :
    (parse_bytecode c2Text).map (fun i => i.opcode) =
      [str "iconst_", str "bipush", str "iadd"] ∧
    okStack (stepN 3 (reset (initDbg c2Text))) = some [Value.intV 10] ∧
    (some [Value.intV 10] : Option (List Value)) ≠ some [Value.intV 15] := by
  decide

/-- C8 counterexample: for the entry `#7 = String #3 // "Hi"` the pool value
is the verbatim text `"Hi"` with the quotation marks, not the string `Hi`. -/
theorem C8_counterexample :
    poolLookup (parse_constant_pool c8Text) 7 = some (str "\x22Hi\x22") ∧
    poolLookup (parse_constant_pool c8Text) 7 ≠ some (str "Hi") := by decide

/-- C8 (amended): the entry `#7 = String #3 // "Hi"` maps index 7 to the
verbatim text after the comment marker, quotation marks included; a
subsequent load-constant referencing #7 pushes exactly that text; and when
two entries of the region share an index the later one is retained (dict
insertion shadows earlier entries on lookup). -/
theorem C8_thm :
    poolLookup (parse_constant_pool c8Text) 7 = some (str "\x22Hi\x22") ∧
    okStack (step (reset (initDbg c8Text))) = some [Value.strV (str "\x22Hi\x22")] ∧
    poolLookup (parse_constant_pool c8DupText) 7 = some (str "Bye") ∧
    ∀ (p : List (Nat × List Char)) (k : Nat) (v : List Char),
      poolLookup (poolInsert p k v) k = some v := by
  refine ⟨by decide, by decide, by decide, fun p k v => ?_⟩
  simp [poolLookup, poolInsert, List.find?_cons]

/-- C10: a `bipush` whose operand is not a valid Python integer literal makes
`simulate` raise an uncaught ValueError that aborts the call (nothing is
pushed, nothing skipped), even though every opcode outside the dispatch
table is a silent no-op — the dispatch is not total over arbitrary
instruction records. -/
theorem C10_thm (d : Dbg) (off : Nat) (ops : List Char) (ln : Option Nat)
    (h : pyIntParse ops = none) :
    simulate ⟨off, str "bipush", ops, ln⟩ d = .error .valueError ∧
    ∀ opc, opc ∉ [str "ldc", str "getstatic", str "invokevirtual", str "new",
        str "istore_1", str "istore_2", str "iconst_5", str "bipush",
        str "iadd", str "isub", str "imul", str "idiv", str "irem"] →
      simulate ⟨off, opc, ops, ln⟩ d = .ok d := by
  constructor
  · rw [simulate_bipush, h]
  · intro opc hmem
    simp only [List.mem_cons, List.not_mem_nil, or_false, not_or] at hmem
    obtain ⟨h1, h2, h3, h4, h5, h6, h7, h8, h9, h10, h11, h12, h13⟩ := hmem
    simp only [simulate]
    rw [if_neg h1, if_neg (fun hc => h2 hc.1), if_neg h3,
        if_neg (fun hc => h4 hc.1), if_neg h5, if_neg h6, if_neg h7,
        if_neg h8, if_neg h9, if_neg h10,
        if_neg (fun hc => hc.elim h11 (fun hc2 => hc2.elim h12 h13))]

/-- C10 witness at the concrete malformed operand `xyz` and the concrete
unknown opcode `nop`. -/
theorem C10_witness :
    simulate ⟨0, str "bipush", str "xyz", none⟩ (initDbg []) =
      .error .valueError ∧
    simulate ⟨0, str "nop", str "xyz", none⟩ (initDbg []) = .ok (initDbg []) := by
  have h := C10_thm (initDbg []) 0 (str "xyz") none (by decide)
  exact ⟨h.1, h.2 (str "nop") (by decide)⟩

/-- C9: with two integer operands on the stack, integer divide and remainder
raise a fatal ZeroDivisionError terminating the `simulate` call when the
divisor is zero (no fallback value, no silent skip), and raise nothing when
the divisor is nonzero. -/
theorem C9_thm (d : Dbg) (a b : Int) (rest : List Value) (off : Nat)
    (ops : List Char) (ln : Option Nat)
    (hs : d.stack = rest ++ [Value.intV a, Value.intV b]) :
    (b = 0 →
      simulate ⟨off, str "idiv", ops, ln⟩ d = .error .zeroDivisionError ∧
      simulate ⟨off, str "irem", ops, ln⟩ d = .error .zeroDivisionError) ∧
    (b ≠ 0 →
      isOkE (simulate ⟨off, str "idiv", ops, ln⟩ d) = true ∧
      isOkE (simulate ⟨off, str "irem", ops, ln⟩ d) = true) := by
  have hrev : d.stack.reverse = Value.intV b :: Value.intV a :: rest.reverse := by
    rw [hs]; simp
  constructor
  · intro hb
    subst hb
    exact ⟨by rw [simulate_idiv, hrev]; simp [pyFloorDiv],
           by rw [simulate_irem, hrev]; simp [pyMod]⟩
  · intro hb
    constructor
    · rw [simulate_idiv, hrev]
      simp [pyFloorDiv, hb, isOkE]
    · rw [simulate_irem, hrev]
      simp [pyMod, hb, isOkE]

/-- C9 witness: divide of 5 by 0 raises; divide of -7 by 2 does not. -/
theorem C9_witness :
    simulate ⟨0, str "idiv", [], none⟩ c9Dbg = .error .zeroDivisionError ∧
    isOkE (simulate ⟨0, str "irem", [], none⟩ c7Dbg) = true := by
  exact ⟨((C9_thm c9Dbg 5 0 [] 0 [] none (by decide)).1 rfl).1,
         ((C9_thm c7Dbg (-7) 2 [] 0 [] none (by decide)).2 (by decide)).2⟩

/-- C7: with integer operands a below b on the stack and b nonzero, `idiv`
pops b then a and pushes `Int.fdiv a b` and `irem` pushes `Int.fmod a b`;
these satisfy `b * q + r = a` with the remainder in `[0, b)` for positive b
and in `(b, 0]` for negative b, which is exactly flooring toward negative
infinity; arithmetic is exact integer arithmetic with no wraparound. -/
theorem C7_thm (d : Dbg) (a b : Int) (rest : List Value) (off : Nat)
    (ops : List Char) (ln : Option Nat)
    (hs : d.stack = rest ++ [Value.intV a, Value.intV b]) (hb : b ≠ 0) :
    simulate ⟨off, str "idiv", ops, ln⟩ d =
      .ok { d with stack := rest ++ [Value.intV (Int.fdiv a b)],
                   output := d.output ++
                     [str "Divided " ++ intStr a ++ str " / " ++ intStr b ++
                      str " = " ++ intStr (Int.fdiv a b)] } ∧
    simulate ⟨off, str "irem", ops, ln⟩ d =
      .ok { d with stack := rest ++ [Value.intV (Int.fmod a b)],
                   output := d.output ++
                     [str "Remainder " ++ intStr a ++ str " % " ++ intStr b ++
                      str " = " ++ intStr (Int.fmod a b)] } ∧
    b * Int.fdiv a b + Int.fmod a b = a ∧
    (0 < b → 0 ≤ Int.fmod a b ∧ Int.fmod a b < b) ∧
    (b < 0 → b < Int.fmod a b ∧ Int.fmod a b ≤ 0) := by
  have hrev : d.stack.reverse = Value.intV b :: Value.intV a :: rest.reverse := by
    rw [hs]; simp
  refine ⟨?_, ?_, Int.fdiv_add_fmod a b, (fmod_bounds a b).1, (fmod_bounds a b).2⟩
  · rw [simulate_idiv, hrev]
    simp [pyFloorDiv, hb, pyStr]
  · rw [simulate_irem, hrev]
    simp [pyMod, hb, pyStr]

/-- C7 witness: -7 divided by 2 pushes -4 (not -3) and -7 rem 2 pushes 1. -/
theorem C7_witness :
    okStack (simulate ⟨0, str "idiv", [], none⟩ c7Dbg) = some [Value.intV (-4)] ∧
    okStack (simulate ⟨0, str "irem", [], none⟩ c7Dbg) = some [Value.intV 1] := by
  have h := C7_thm c7Dbg (-7) 2 [] 0 [] none (by decide) (by decide)
  rw [h.1, h.2.1]
  exact ⟨by decide, by decide⟩

/-- A successful anchored hash match starts with the hash character. -/
theorem hashAt_ne (c : Char) (t : List Char) (hc : ¬ c = '#') :
    hashAt (c :: t) = none := by
  unfold hashAt
  split
  · next r heq =>
    injection heq with h1 _
    exact absurd h1 hc
  · rfl

/-- A successful leftmost hash-number search implies the text contains the
hash character. -/
theorem hash_mem_of_hashNumSearch (l : List Char) (i : Nat)
    (h : hashNumSearch l = some i) : '#' ∈ l := by
  induction l with
  | nil =>
    rw [hashNumSearch, searchAux] at h
    simp [hashAt] at h
  | cons c t ih =>
    by_cases hc : c = '#'
    · subst hc
      exact List.mem_cons_self _ _
    · rw [hashNumSearch, searchAux, hashAt_ne c t hc] at h
      exact List.mem_cons_of_mem c (ih h)

/-- Dropping a satisfied prefix never removes an element that fails the
predicate. -/
theorem mem_dropWhile_of_mem (p : Char → Bool) (c : Char) (hc : p c = false) :
    ∀ l : List Char, c ∈ l → c ∈ l.dropWhile p := by
  intro l
  induction l with
  | nil => intro h; cases h
  | cons x t ih =>
    intro hl
    rw [List.dropWhile_cons]
    by_cases hx : p x = true
    · simp only [hx, if_pos]
      rcases List.mem_cons.mp hl with h | h
      · rw [← h, hc] at hx
        cases hx
      · exact ih h
    · simp only [hx, if_neg, Bool.false_eq_true, not_false_iff]
      exact hl

/-- Stripping whitespace never removes a non-whitespace character. -/
theorem mem_pyStrip (c : Char) (l : List Char) (hc : isPySpace c = false)
    (h : c ∈ l) : c ∈ pyStrip l := by
  unfold pyStrip
  have h1 := mem_dropWhile_of_mem isPySpace c hc l h
  have h2 : c ∈ (l.dropWhile isPySpace).reverse := List.mem_reverse.mpr h1
  have h3 := mem_dropWhile_of_mem isPySpace c hc _ h2
  exact List.mem_reverse.mpr h3

/-- Dropping one sign never removes a character that is not a sign. -/
theorem mem_dropSign (c : Char) (hc1 : ¬ c = '+') (hc2 : ¬ c = '-')
    (l : List Char) (h : c ∈ l) : c ∈ dropSign l := by
  cases l with
  | nil => cases h
  | cons x t =>
    simp only [dropSign]
    by_cases hx : x = '+' ∨ x = '-'
    · rw [if_pos hx]
      rcases List.mem_cons.mp h with he | he
      · subst he
        exact absurd hx (by push_neg; exact ⟨hc1, hc2⟩)
      · exact he
    · rw [if_neg hx]
      exact h

/-- A Python float literal never contains the hash character, so the numeric
fallback of `ldc` fails on every operand with a `#`-index in it. -/
theorem pyFloatOk_hash_false (s : List Char) (h : '#' ∈ s) :
    pyFloatOk s = false := by
  have h2 : '#' ∈ dropSign (pyStrip s) :=
    mem_dropSign '#' (by decide) (by decide) _
      (mem_pyStrip '#' s (by decide) h)
  have h3 : (dropSign (pyStrip s)).all isFloatChar = false := by
    refine Bool.eq_false_iff.mpr fun hall => ?_
    have := List.all_eq_true.mp hall '#' h2
    exact absurd this (by decide)
  simp only [pyFloatOk]
  rw [h3, Bool.false_and]

/-- C3 counterexample: an `ldc` whose operand text holds no `#index` token
makes `simulate` abort with an AttributeError (the `.group` call on a failed
search), instead of never aborting as the claim states. -/
theorem C3_counterexample :
    simulate ⟨0, str "ldc", str "2.5", none⟩ (initDbg []) =
      .error .attrError ∧
    hashNumSearch (str "2.5") = none := by decide

/-- C3 (amended): on an `ldc`, when the operand text holds a `#index` token,
`simulate` pushes the pool string if the index is in the pool, and pushes
null otherwise — the numeric fallback can never succeed there because the
operand text contains `#`, which no Python float literal accepts; when the
operand text holds no `#index` token, `simulate` aborts with an
AttributeError instead of pushing anything. -/
theorem C3_thm (d : Dbg) (off : Nat) (ops : List Char) (ln : Option Nat) :
    (hashNumSearch ops = none →
      simulate ⟨off, str "ldc", ops, ln⟩ d = .error .attrError) ∧
    (∀ cidx s, hashNumSearch ops = some cidx →
      poolLookup d.pool cidx = some s →
      simulate ⟨off, str "ldc", ops, ln⟩ d =
        .ok { d with stack := d.stack ++ [Value.strV s],
                     output := d.output ++
                       [str "Loaded string constant: " ++ s] }) ∧
    (∀ cidx, hashNumSearch ops = some cidx →
      poolLookup d.pool cidx = none →
      simulate ⟨off, str "ldc", ops, ln⟩ d =
        .ok { d with stack := d.stack ++ [Value.noneV] }) := by
  refine ⟨fun h => ?_, fun cidx s h1 h2 => ?_, fun cidx h1 h2 => ?_⟩
  · rw [simulate_ldc, h]
  · rw [simulate_ldc]
    simp only [h1, h2]
  · have hf : pyFloatOk ops = false :=
      pyFloatOk_hash_false ops (hash_mem_of_hashNumSearch ops cidx h1)
    rw [simulate_ldc]
    simp only [h1, h2]
    simp [hf]

/-- C3 witness at concrete operands: `12` (no hash token, abort), `#7`
(pool hit, pushes the pool text), `#9` (pool miss, pushes null). -/
theorem C3_witness :
    simulate ⟨0, str "ldc", str "12", none⟩ c3PoolDbg = .error .attrError ∧
    simulate ⟨0, str "ldc", str "#7", none⟩ c3PoolDbg =
      .ok { c3PoolDbg with stack := c3PoolDbg.stack ++ [Value.strV (str "X")],
                           output := c3PoolDbg.output ++
                             [str "Loaded string constant: " ++ str "X"] } ∧
    simulate ⟨0, str "ldc", str "#9", none⟩ c3PoolDbg =
      .ok { c3PoolDbg with stack := c3PoolDbg.stack ++ [Value.noneV] } := by
  refine ⟨(C3_thm c3PoolDbg 0 (str "12") none).1 (by decide),
          (C3_thm c3PoolDbg 0 (str "#7") none).2.1 7 (str "X") (by decide)
            (by decide),
          (C3_thm c3PoolDbg 0 (str "#9") none).2.2 9 (by decide) (by decide)⟩

/-- The simulator mutates only the stack, the variables and the two output
logs: instructions, counter, breakpoints, execution state, breakpoint marker
and pool are untouched by every branch. -/
theorem simulate_pres (i : Instr) (d d' : Dbg) (h : simulate i d = .ok d') :
    d'.instructions = d.instructions ∧ d'.idx = d.idx ∧
    d'.breakpoints = d.breakpoints ∧ d'.execState = d.execState ∧
    d'.lastBreakpointHit = d.lastBreakpointHit ∧ d'.pool = d.pool := by
  rw [simulate.eq_def] at h
  by_cases h1 : i.opcode = str "ldc"
  · rw [if_pos h1] at h
    repeat' split at h
    all_goals first
      | exact Except.noConfusion h
      | (injection h with h; subst h; exact ⟨rfl, rfl, rfl, rfl, rfl, rfl⟩)
  rw [if_neg h1] at h
  by_cases h2 : i.opcode = str "getstatic" ∧
      containsSub i.operands (str "java/lang/System.out") = true
  · rw [if_pos h2] at h
    injection h with h; subst h; exact ⟨rfl, rfl, rfl, rfl, rfl, rfl⟩
  rw [if_neg h2] at h
  by_cases h3 : i.opcode = str "invokevirtual"
  · rw [if_pos h3] at h
    repeat' split at h
    all_goals first
      | exact Except.noConfusion h
      | (injection h with h; subst h; exact ⟨rfl, rfl, rfl, rfl, rfl, rfl⟩)
  rw [if_neg h3] at h
  by_cases h4 : i.opcode = str "new" ∧
      containsSub i.operands (str "java/lang/StringBuilder") = true
  · rw [if_pos h4] at h
    injection h with h; subst h; exact ⟨rfl, rfl, rfl, rfl, rfl, rfl⟩
  rw [if_neg h4] at h
  by_cases h5 : i.opcode = str "istore_1"
  · rw [if_pos h5] at h
    repeat' split at h
    all_goals first
      | exact Except.noConfusion h
      | (injection h with h; subst h; exact ⟨rfl, rfl, rfl, rfl, rfl, rfl⟩)
  rw [if_neg h5] at h
  by_cases h6 : i.opcode = str "istore_2"
  · rw [if_pos h6] at h
    repeat' split at h
    all_goals first
      | exact Except.noConfusion h
      | (injection h with h; subst h; exact ⟨rfl, rfl, rfl, rfl, rfl, rfl⟩)
  rw [if_neg h6] at h
  by_cases h7 : i.opcode = str "iconst_5"
  · rw [if_pos h7] at h
    injection h with h; subst h; exact ⟨rfl, rfl, rfl, rfl, rfl, rfl⟩
  rw [if_neg h7] at h
  by_cases h8 : i.opcode = str "bipush"
  · rw [if_pos h8] at h
    repeat' split at h
    all_goals first
      | exact Except.noConfusion h
      | (injection h with h; subst h; exact ⟨rfl, rfl, rfl, rfl, rfl, rfl⟩)
  rw [if_neg h8] at h
  by_cases h9 : i.opcode = str "iadd"
  · rw [if_pos h9] at h
    repeat' split at h
    all_goals first
      | exact Except.noConfusion h
      | (injection h with h; subst h; exact ⟨rfl, rfl, rfl, rfl, rfl, rfl⟩)
  rw [if_neg h9] at h
  by_cases h10 : i.opcode = str "isub"
  · rw [if_pos h10] at h
    repeat' split at h
    all_goals first
      | exact Except.noConfusion h
      | (injection h with h; subst h; exact ⟨rfl, rfl, rfl, rfl, rfl, rfl⟩)
  rw [if_neg h10] at h
  by_cases h11 : i.opcode = str "imul" ∨ i.opcode = str "idiv" ∨
      i.opcode = str "irem"
  · rw [if_pos h11] at h
    repeat' split at h
    all_goals first
      | exact Except.noConfusion h
      | (injection h with h; subst h; exact ⟨rfl, rfl, rfl, rfl, rfl, rfl⟩)
  rw [if_neg h11] at h
  injection h with h; subst h; exact ⟨rfl, rfl, rfl, rfl, rfl, rfl⟩

/-- Shape of a normal-branch `step` result: the instruction-independent
facts about the returned state. -/
theorem step_normal_aux (instr : Instr) (dIn : Dbg) (s : Dbg)
    (h : (match simulate instr dIn with
          | .error e => (.error e : Except PyErr Dbg)
          | .ok d2 => .ok (showState { d2 with idx := d2.idx + 1 })) = .ok s) :
    s.instructions = dIn.instructions ∧ s.idx = dIn.idx + 1 ∧
    s.execState = dIn.execState := by
  rcases hsim : simulate instr dIn with e | d2
  · rw [hsim] at h
    exact Except.noConfusion h
  · rw [hsim] at h
    injection h with h
    subst h
    have hp := simulate_pres _ _ _ hsim
    exact ⟨hp.1, by rw [show (showState { d2 with idx := d2.idx + 1 }).idx =
        d2.idx + 1 from rfl, hp.2.1], hp.2.2.2.1⟩

/-- A successful `step` taken strictly inside the stream advances the
counter by one, keeps the instruction list, and leaves the session paused. -/
theorem step_normal (d s : Dbg) (h : step d = .ok s)
    (hlt : d.idx < d.instructions.length) :
    s.instructions = d.instructions ∧ s.idx = d.idx + 1 ∧
    s.execState = ExecState.paused := by
  rcases hd : d.instructions.drop d.idx with _ | ⟨instr, rest⟩
  · rw [List.drop_eq_nil_iff] at hd
    omega
  · simp only [step] at h
    rw [hd] at h
    exact step_normal_aux instr _ s h

/-- Iterating `step` inside the stream: after `k` successful steps the
counter has advanced by `k`, the instruction list is unchanged, and when at
least one step was taken the session is paused. -/
theorem stepN_spec : ∀ (k : Nat) (d s : Dbg), stepN k d = .ok s →
    d.idx + k ≤ d.instructions.length →
    s.instructions = d.instructions ∧ s.idx = d.idx + k ∧
    (1 ≤ k → s.execState = ExecState.paused) := by
  intro k
  induction k with
  | zero =>
    intro d s h _
    injection h with h
    subst h
    exact ⟨rfl, rfl, fun h1 => absurd h1 (by omega)⟩
  | succ n ih =>
    intro d s h hlen
    simp only [stepN] at h
    rcases hstep : step d with e | d1
    · rw [hstep] at h
      exact Except.noConfusion h
    · rw [hstep] at h
      have hlt : d.idx < d.instructions.length := by omega
      have hn := step_normal d d1 hstep hlt
      have ih2 := ih d1 s h (by rw [hn.1, hn.2.1]; omega)
      refine ⟨by rw [ih2.1, hn.1], by rw [ih2.2.1, hn.2.1]; omega, fun _ => ?_⟩
      rcases Nat.eq_zero_or_pos n with hz | hpos
      · subst hz
        simp only [stepN] at h
        injection h with h
        rw [← h]
        exact hn.2.2
      · exact ih2.2.2 hpos

/-- C1 counterexample: on a one-instruction stream, one `step` from a fresh
reset (that is, streamLength many steps) leaves the session `paused`, not
`stopped` as the claim states; only the following call stops it. -/
theorem C1_counterexample :
    (parse_bytecode nopText).length = 1 ∧
    okExecState (stepN 1 (reset (initDbg nopText))) = some ExecState.paused ∧
    some ExecState.paused ≠ some ExecState.stopped := by decide

/-- C1 (amended): stepping a freshly reset session exactly streamLength
times (streamLength at least one and no step raising) ends with execution
state `paused`; it is the (streamLength+1)-th call — any call made with the
counter at or beyond the stream length — that appends the end-of-program
message and moves to `stopped`, and that call mutates nothing else: stack,
variables, counter, and all session data are returned unchanged. -/
theorem C1_thm :
    (∀ (text : List Char) (N : Nat) (s : Dbg),
       (parse_bytecode text).length = N → 1 ≤ N →
       stepN N (reset (initDbg text)) = .ok s →
       s.execState = ExecState.paused) ∧
    (∀ d : Dbg, d.instructions.length ≤ d.idx →
       step d = .ok { d with
         output := d.output ++ [str "End of program reached."],
         execState := ExecState.stopped }) := by
  constructor
  · intro text N s hN h1 hstep
    refine (stepN_spec N (reset (initDbg text)) s hstep ?_).2.2 h1
    show 0 + N ≤ (parse_bytecode text).length
    rw [hN]
    omega
  · intro d hle
    have hnil : d.instructions.drop d.idx = [] := by
      rw [List.drop_eq_nil_iff]
      exact hle
    simp only [step]
    rw [hnil]

/-- C1 witness: one step on the one-instruction stream (applying the first
part at streamLength 1), and the end-of-stream no-op on an empty session
(applying the second part with counter 0 at stream length 0). -/
theorem C1_witness :
    okExecState (stepN 1 (reset (initDbg nopText))) = some ExecState.paused ∧
    step c1EndDbg = .ok { c1EndDbg with
      output := c1EndDbg.output ++ [str "End of program reached."],
      execState := ExecState.stopped } := by
  constructor
  · rcases hc : stepN 1 (reset (initDbg nopText)) with e | s
    · have hok : isOkE (stepN 1 (reset (initDbg nopText))) = true := by decide
      rw [hc] at hok
      exact absurd hok (by simp [isOkE])
    · have hps := C1_thm.1 nopText 1 s (by decide) (by decide) hc
      simp [okExecState, hps]
  · exact C1_thm.2 c1EndDbg (by decide)

/-- Fallback on none is the identity. -/
theorem orElseO_none (a : Option Nat) : orElseO a none = a := by
  cases a <;> rfl

/-- Option fallback is associative. -/
theorem orElseO_assoc (a b c : Option Nat) :
    orElseO (orElseO a b) c = orElseO a (orElseO b c) := by
  cases a <;> rfl

/-- Last element of a cons in fallback form. -/
theorem getLast?_cons_orElseO (a : Nat) (l : List Nat) :
    (a :: l).getLast? = orElseO l.getLast? (some a) := by
  induction l generalizing a with
  | nil => rfl
  | cons b t ih =>
    rw [List.getLast?_cons_cons, ih b]
    cases t.getLast? <;> rfl

/-- Shifting the line context one line down: the context of line `i+1` of
`l :: ls` with fallback `cur` is the context of line `i` of `ls` with the
marker of `l` (if any) taking precedence over `cur`. -/
theorem markerCtx_succ (l : List Char) (ls : List (List Char)) (i : Nat)
    (cur : Option Nat) :
    orElseO (markerCtx (l :: ls) (i + 1)) cur =
      orElseO (markerCtx ls i) (orElseO (markerSearch l) cur) := by
  unfold markerCtx
  rw [List.take_succ_cons, List.filterMap_cons]
  cases hm : markerSearch l
  · rfl
  · rw [getLast?_cons_orElseO, orElseO_assoc]

/-- The line context of the first line is its own marker, else the
fallback. -/
theorem markerCtx_zero (l : List Char) (ls : List (List Char))
    (cur : Option Nat) :
    orElseO (markerCtx (l :: ls) 0) cur = orElseO (markerSearch l) cur := by
  unfold markerCtx
  rw [show (l :: ls).take 1 = [l] from rfl, List.filterMap_cons]
  cases hm : markerSearch l <;> rfl

/-- Numbering from `n+1` is numbering from `n` with all indices shifted. -/
theorem numbered_succ (n : Nat) (ls : List (List Char)) :
    numbered (n + 1) ls = (numbered n ls).map (fun p => (p.1 + 1, p.2)) := by
  induction ls generalizing n with
  | nil => rfl
  | cons l t ih => simp [numbered, ih]

/-- The accumulator form of the parser loop equals the claim-side
description with the accumulator as fallback context. -/
theorem parseLines_claim (ls : List (List Char)) : ∀ cur : Option Nat,
    parseLines ls cur = (numbered 0 ls).filterMap fun p =>
      (instrMatch p.2).map fun t =>
        (⟨t.1, t.2.1, t.2.2, orElseO (markerCtx ls p.1) cur⟩ : Instr) := by
  induction ls with
  | nil => intro cur; rfl
  | cons l t ih =>
    intro cur
    simp only [parseLines]
    rw [show numbered 0 (l :: t) = (0, l) :: numbered 1 t from rfl,
        List.filterMap_cons, numbered_succ 0 t, List.filterMap_map]
    simp only [Function.comp_def, markerCtx_succ, markerCtx_zero]
    rw [← ih (orElseO (markerSearch l) cur)]
    cases hi : instrMatch l with
    | none => rfl
    | some tt =>
      obtain ⟨off, opv, ar⟩ := tt
      rfl

/-- Length of the claim-side parse is the number of matching lines. -/
theorem claimParse_length (lines : List (List Char)) :
    ∀ (ls : List (List Char)) (n : Nat),
    ((numbered n ls).filterMap fun p =>
       (instrMatch p.2).map fun t =>
         (⟨t.1, t.2.1, t.2.2, markerCtx lines p.1⟩ : Instr)).length =
    ls.countP (fun l => (instrMatch l).isSome) := by
  intro ls
  induction ls with
  | nil => intro n; rfl
  | cons l t ih =>
    intro n
    rw [show numbered n (l :: t) = (n, l) :: numbered (n + 1) t from rfl,
        List.filterMap_cons, List.countP_cons]
    cases hi : instrMatch l
    · simp [ih]
    · simp [ih]

/-- C5: the parser produces, in input order, exactly one record per line
matching the instruction pattern — offsets carried verbatim from the match,
never renumbered — each tagged with the value of the nearest preceding
line-marker match (the marker of the instruction's own line included, since
the source checks the marker pattern first), or none when no marker
precedes; non-matching lines contribute nothing, so the count equals the
number of matching lines. -/
theorem C5_thm (text : List Char) :
    parse_bytecode text = claimParse (splitNl text) ∧
    (parse_bytecode text).length =
      (splitNl text).countP (fun l => (instrMatch l).isSome) := by
  have h1 : parse_bytecode text = claimParse (splitNl text) := by
    unfold parse_bytecode claimParse
    rw [parseLines_claim (splitNl text) none]
    simp only [orElseO_none]
  refine ⟨h1, ?_⟩
  rw [h1]
  unfold claimParse
  exact claimParse_length (splitNl text) (splitNl text) 0

/-- C6: entering `run_to_next_breakpoint` while standing on the offset
recorded as the last breakpoint hit never re-halts immediately: the current
instruction is executed and the sweep continues with the skip-current
exemption disabled (first conjunct — the run unfolds to one simulation of
the current instruction followed by the loop with the skip flag off).  The
second conjunct characterizes that loop: a normal return is either a halt in
`paused` at the first remaining instruction whose offset is in the
breakpoint set, recording it as last breakpoint hit, or — when no remaining
offset is a breakpoint — a drain of the stream ending `stopped` with the
marker unchanged. -/
theorem C6_thm (d : Dbg) (X : Nat) (i : Instr) (rest : List Instr)
    (hdrop : d.instructions.drop d.idx = i :: rest)
    (hoff : i.offset = X)
    (hlast : d.lastBreakpointHit = some X) :
    run_to_next_breakpoint d =
      (match simulate i
          { d with execState := ExecState.running, output := [] } with
       | .error e => .error e
       | .ok d' => runLoop rest false { d' with idx := d'.idx + 1 }) ∧
    (∀ (rs : List Instr) (s0 s : Dbg), runLoop rs false s0 = .ok s →
       (s.execState = ExecState.paused ∧
        ∃ (j : Nat) (i' : Instr), rs[j]? = some i' ∧
          i'.offset ∈ s0.breakpoints ∧
          s.lastBreakpointHit = some i'.offset ∧
          ∀ (k : Nat) (i'' : Instr), k < j → rs[k]? = some i'' →
            i''.offset ∉ s0.breakpoints) ∨
       (s.execState = ExecState.stopped ∧
        s.lastBreakpointHit = s0.lastBreakpointHit ∧
        ∀ (k : Nat) (i'' : Instr), rs[k]? = some i'' →
          i''.offset ∉ s0.breakpoints)) := by
  constructor
  · simp only [run_to_next_breakpoint]
    rw [hdrop]
    have hcond : ¬ (i.offset ∈ d.breakpoints ∧
        ((decide (i.offset ∈ d.breakpoints ∧
            some i.offset = d.lastBreakpointHit)) = false ∨
         ¬ some i.offset = d.lastBreakpointHit)) := by
      rintro ⟨hmem, hor⟩
      have hsome : some i.offset = d.lastBreakpointHit := by rw [hoff, hlast]
      rcases hor with hdec | hne
      · rw [decide_eq_false_iff_not] at hdec
        exact hdec ⟨hmem, hsome⟩
      · exact hne hsome
    rw [runLoop, if_neg hcond]
  · intro rs
    induction rs with
    | nil =>
      intro s0 s h
      simp only [runLoop] at h
      injection h with h
      subst h
      refine Or.inr ⟨rfl, rfl, fun k i'' hkget => ?_⟩
      simp at hkget
    | cons i0 rs' ih =>
      intro s0 s h
      simp only [runLoop] at h
      by_cases hm : i0.offset ∈ s0.breakpoints
      · rw [if_pos ⟨hm, Or.inl (by trivial)⟩] at h
        injection h with h
        subst h
        refine Or.inl ⟨rfl, 0, i0, List.getElem?_cons_zero, hm, rfl,
          fun k i'' hk _ => ?_⟩
        exact absurd hk (Nat.not_lt_zero k)
      · rw [if_neg (fun hcc => hm hcc.1)] at h
        rcases hsim : simulate i0 s0 with e | d1
        · rw [hsim] at h
          exact Except.noConfusion h
        · rw [hsim] at h
          have hp := simulate_pres _ _ _ hsim
          have ih2 := ih { d1 with idx := d1.idx + 1 } s h
          have hbp : ({ d1 with idx := d1.idx + 1 } : Dbg).breakpoints =
              s0.breakpoints := hp.2.2.1
          have hlh : ({ d1 with idx := d1.idx + 1 } : Dbg).lastBreakpointHit =
              s0.lastBreakpointHit := hp.2.2.2.2.1
          rw [hbp, hlh] at ih2
          rcases ih2 with ⟨hpause, j, i', hj, hjb, hlastj, hmin⟩ |
            ⟨hstop, hlast2, hall⟩
          · refine Or.inl ⟨hpause, j + 1, i',
              by rw [List.getElem?_cons_succ]; exact hj, hjb, hlastj,
              fun k i'' hk hkget => ?_⟩
            cases k with
            | zero =>
              rw [List.getElem?_cons_zero] at hkget
              injection hkget with hkget
              rw [← hkget]
              exact hm
            | succ k' =>
              exact hmin k' i'' (by omega)
                (by rwa [List.getElem?_cons_succ] at hkget)
          · refine Or.inr ⟨hstop, hlast2, fun k i'' hkget => ?_⟩
            cases k with
            | zero =>
              rw [List.getElem?_cons_zero] at hkget
              injection hkget with hkget
              rw [← hkget]
              exact hm
            | succ k' =>
              exact hall k' i'' (by rwa [List.getElem?_cons_succ] at hkget)

/-- C6 witness: on the stream with offsets 10, 20, 10, breakpoint set {10}
and last hit 10 recorded at the first instruction, the run is the
no-immediate-re-halt unfolding, succeeds, and pauses again only at the
second occurrence of offset 10 (instruction index 2). -/
theorem C6_witness :
    run_to_next_breakpoint c6Dbg =
      (match simulate c6I
          { c6Dbg with execState := ExecState.running, output := [] } with
       | .error e => .error e
       | .ok d' => runLoop c6Rest false { d' with idx := d'.idx + 1 }) ∧
    okExecState (run_to_next_breakpoint c6Dbg) = some ExecState.paused ∧
    (match run_to_next_breakpoint c6Dbg with
     | .ok s => some s.idx
     | .error _ => none) = some 2 := by
  have h := C6_thm c6Dbg 10 c6I c6Rest (by decide) (by decide) (by decide)
  exact ⟨h.1, by decide, by decide⟩

end JavaDecomp
